import Mathlib

/-!
Shallow embedding of the core of the gmt-lom repository (GMT linear optical
model): dense sensitivity matrices, rigid body motion series, the linear
transform into optical metrics, and the statistics layer.

Floating point numbers of the source are modelled by rational numbers; the
claims settled here concern index layout, which samples enter each formula,
and precondition behaviour, none of which depend on rounding.

Matrices follow nalgebra: column-major flat storage.  Rust panics
(assertion failures, `unimplemented!`, failed `expect`) are modelled by
`Option.none`.
-/

namespace GmtLom

/-- Dense column-major matrix over rationals, mirroring nalgebra DMatrix:
the element at row i, column j sits at flat index `i + nrows * j`. -/
structure DMat where
  nrows : Nat
  ncols : Nat
  data : List ℚ
deriving DecidableEq

/-- Matrix element at row i, column j (0 outside the stored data). -/
def DMat.entry (m : DMat) (i j : Nat) : ℚ :=
  m.data.getD (i + m.nrows * j) 0

/-- Dense matrix product, stored column-major as nalgebra does: column j of
the result lists, for each row i, the dot product of row i of a with
column j of b. -/
def DMat.mul (a b : DMat) : DMat where
  nrows := a.nrows
  ncols := b.ncols
  data :=
    ((List.range b.ncols).map (fun j =>
      (List.range a.nrows).map (fun i =>
        ((List.range a.ncols).map (fun l => a.entry i l * b.entry l j)).sum))).flatten

/-- The `OpticalSensitivity` enum of optical_sensitivities.rs: each variant
carries its flat column-major payload (masks carry their own element types). -/
inductive OpticalSensitivity where
  | Wavefront (v : List ℚ)
  | TipTilt (v : List ℚ)
  | SegmentTipTilt (v : List ℚ)
  | SegmentPiston (v : List ℚ)
  | SegmentMask (v : List ℤ)
  | PupilMask (v : List Bool)
deriving DecidableEq

/-- Variant tags of `OpticalSensitivity`, used to talk about variant
identity. -/
inductive OSKind where
  | wavefront | tipTilt | segmentTipTilt | segmentPiston | segmentMask | pupilMask
deriving DecidableEq

/-- The variant tag of a sensitivity. -/
def OpticalSensitivity.kind : OpticalSensitivity → OSKind
  | .Wavefront _ => .wavefront
  | .TipTilt _ => .tipTilt
  | .SegmentTipTilt _ => .segmentTipTilt
  | .SegmentPiston _ => .segmentPiston
  | .SegmentMask _ => .segmentMask
  | .PupilMask _ => .pupilMask

/-- The matrix payload of a sensitivity (masks have no matrix payload). -/
def OpticalSensitivity.payload : OpticalSensitivity → List ℚ
  | .Wavefront v | .TipTilt v | .SegmentTipTilt v | .SegmentPiston v => v
  | _ => []

/-- Row count of each sensitivity matrix, as hard-coded in the source
(Wavefront rows come from the payload length divided by N = 84). -/
def OpticalSensitivity.rows : OpticalSensitivity → Nat
  | .Wavefront v => v.length / 84
  | .TipTilt _ => 2
  | .SegmentTipTilt _ => 14
  | .SegmentPiston _ => 7
  | .SegmentMask _ => 0
  | .PupilMask _ => 0

/-- The source PartialEq for OpticalSensitivity: equality of variants only,
payloads are ignored. -/
def oseq : OpticalSensitivity → OpticalSensitivity → Bool
  | .Wavefront _, .Wavefront _ => true
  | .TipTilt _, .TipTilt _ => true
  | .SegmentTipTilt _, .SegmentTipTilt _ => true
  | .SegmentPiston _, .SegmentPiston _ => true
  | .SegmentMask _, .SegmentMask _ => true
  | .PupilMask _, .PupilMask _ => true
  | _, _ => false

/-- A sensitivity store is the Vec of sensitivities held by
`OpticalSensitivities`. -/
abbrev OpticalSensitivities := List OpticalSensitivity

/-- The Index impl of `OpticalSensitivities`: scan for the first element the
key compares equal to (variant identity); the `expect` panic on a miss is
`none`. -/
def osIndex (store : OpticalSensitivities) (key : OpticalSensitivity) :
    Option OpticalSensitivity :=
  store.find? (fun s => oseq key s)

/-- `OpticalSensitivity::into_optics`: build the sensitivity matrix from the
column-major payload with the variant's hard-coded row count, multiply with
the 84 x N rigid body motion matrix, and return the column-major flat data
of the product (nalgebra `as_slice`).  The mask variants hit
`unimplemented!`, modelled as `none`. -/
def into_optics (s : OpticalSensitivity) (rbm : DMat) : Option (List ℚ) :=
  match s with
  | .TipTilt sens => some ((DMat.mul ⟨2, 84, sens⟩ rbm).data)
  | .SegmentTipTilt sens => some ((DMat.mul ⟨14, 84, sens⟩ rbm).data)
  | .SegmentPiston sens => some ((DMat.mul ⟨7, 84, sens⟩ rbm).data)
  | .Wavefront sens => some ((DMat.mul ⟨sens.length / 84, 84, sens⟩ rbm).data)
  | _ => none

/-- The pupil re-expansion loop shared by `LOM::wavefront` and
`OpticalSensitivities::wavefront`: walk the pupil mask, emitting the next
masked-wavefront value at a true entry and 0 at a false entry; the
`unwrap` panic when the masked wavefront runs out is `none`. -/
def expandWavefront : List Bool → List ℚ → Option (List ℚ)
  | [], _ => some []
  | true :: _, [] => none
  | true :: ms, w :: ws => (expandWavefront ms ws).map (fun l => w :: l)
  | false :: ms, ws => (expandWavefront ms ws).map (fun l => (0 : ℚ) :: l)

/-- `LOM::wavefront`: look up the Wavefront sensitivity, transform the rigid
body motions, look up the PupilMask and re-expand; the panics on a missing
variant are `none`. -/
def lomWavefront (sens : OpticalSensitivities) (rbm : DMat) : Option (List ℚ) :=
  match osIndex sens (.Wavefront []) with
  | some (OpticalSensitivity.Wavefront wv) =>
    match osIndex sens (.PupilMask []) with
    | some (OpticalSensitivity.PupilMask mask) =>
      (into_optics (.Wavefront wv) rbm).bind (fun w => expandWavefront mask w)
    | _ => none
  | _ => none

/-- One step of `LOM::segment_wavefront` for a given segment id: zip the
remaining wavefront iterator with the segment mask and keep the values whose
mask entry equals the id.  Rust's `Iterator::zip` on `wavefront.by_ref()`
consumes `mask.length + 1` wavefront elements when more are available (the
element pulled after the mask is exhausted is dropped), else all of them. -/
def segBucket (mask : List ℤ) (sid : ℤ) (w : List ℚ) : List ℚ :=
  (w.zip mask).filterMap (fun p => if p.2 = sid then some p.1 else none)

/-- Number of wavefront elements consumed from the iterator by one
`zip(mask)` pass. -/
def segConsumed (mask : List ℤ) (w : List ℚ) : Nat :=
  min w.length (mask.length + 1)

/-- The `(1..=7).map(...)` loop of `LOM::segment_wavefront`: the wavefront
iterator is advanced across segment ids (`by_ref`), so each id zips against
what the previous ids left over. -/
def segmentWavefrontAux (mask : List ℤ) : Nat → ℤ → List ℚ → List (List ℚ)
  | 0, _, _ => []
  | n + 1, sid, w =>
    segBucket mask sid w ::
      segmentWavefrontAux mask n (sid + 1) (w.drop (segConsumed mask w))

/-- `LOM::segment_wavefront` applied to an already transformed masked
wavefront and a segment mask. -/
def segment_wavefront (mask : List ℤ) (w : List ℚ) : List (List ℚ) :=
  segmentWavefrontAux mask 7 1 w

/-- The output `Formatting` switch carried by the motion series. -/
inductive Formatting where
  | AdHoc | Latex
deriving DecidableEq

/-- `RigidBodyMotions`: sampling frequency, optional explicit time vector and
the 84 x n matrix of rigid body motions. -/
structure RigidBodyMotions where
  sampling_frequency : Option ℚ
  time : Option (List ℚ)
  data : DMat
  format : Formatting

/-- The Default impl: no sampling frequency, no time vector, an 84 x 1 zero
matrix. -/
def RigidBodyMotions.default : RigidBodyMotions where
  sampling_frequency := none
  time := none
  data := ⟨84, 1, List.replicate 84 0⟩
  format := .AdHoc

/-- `RigidBodyMotions::time`: explicit timestamps when known, else
`i / sampling_frequency` (sampling frequency defaulting to 1). -/
def RigidBodyMotions.timeVec (r : RigidBodyMotions) : List ℚ :=
  match r.time with
  | some t => t
  | none => (List.range r.data.ncols).map (fun i => (r.sampling_frequency.getD 1)⁻¹ * i)

/-- `RigidBodyMotions::len`: the number of time samples (columns). -/
def RigidBodyMotions.len (r : RigidBodyMotions) : Nat :=
  r.data.ncols

/-- FromIterator over (M1 nested per-segment vectors, M2 nested per-segment
vectors): flatten each pair M1-then-M2, concatenate over samples, and build
the matrix with `DMatrix::from_vec(84, len / 84, data)`; nalgebra's
assertion that the vector length equals `84 * (len / 84)` panics (`none`)
when the total length is not a multiple of 84. -/
def rbmFromNestedIter (iter : List (List (List ℚ) × List (List ℚ))) :
    Option RigidBodyMotions :=
  let data := iter.flatMap (fun p => p.1.flatten ++ p.2.flatten)
  if data.length % 84 = 0 then
    some ⟨none, none, ⟨84, data.length / 84, data⟩, .AdHoc⟩
  else none

/-- FromIterator over (M1 flat 42-slice, M2 flat 42-slice) pairs: same
flattening and the same `from_vec` length assertion. -/
def rbmFromSliceIter (iter : List (List ℚ × List ℚ)) :
    Option RigidBodyMotions :=
  let data := iter.flatMap (fun p => p.1 ++ p.2)
  if data.length % 84 = 0 then
    some ⟨none, none, ⟨84, data.length / 84, data⟩, .AdHoc⟩
  else none

/-- `RigidBodyMotions::zeroed_m1`: set every element of the first 42 rows to
zero, in the column-major flat storage (the row of flat index idx is
`idx % nrows`). -/
def RigidBodyMotions.zeroed_m1 (r : RigidBodyMotions) : RigidBodyMotions :=
  { r with
    data := { r.data with
      data := (List.range r.data.data.length).map (fun idx =>
        if idx % r.data.nrows < 42 then 0 else r.data.data.getD idx 0) } }

/-- `RigidBodyMotions::zeroed_m2`: set every element of the rows from 42 on
to zero. -/
def RigidBodyMotions.zeroed_m2 (r : RigidBodyMotions) : RigidBodyMotions :=
  { r with
    data := { r.data with
      data := (List.range r.data.data.length).map (fun idx =>
        if 42 ≤ idx % r.data.nrows then 0 else r.data.data.getD idx 0) } }

/-- The `LOM` pairing of a sensitivity store and a motion series. -/
structure LOM where
  sens : OpticalSensitivities
  rbm : RigidBodyMotions

/-- `LOMBuilder::build` with the sensitivities already supplied: the motion
series falls back to `RigidBodyMotions::default` when none was set; no
error concerning rigid body motions can arise. -/
def lomBuild (sens : OpticalSensitivities) (rbm : Option RigidBodyMotions) : LOM where
  sens := sens
  rbm := rbm.getD RigidBodyMotions.default

/-- `LOM::len`. -/
def LOM.len (lom : LOM) : Nat := lom.rbm.len

/-- `LOM::is_empty`. -/
def LOM.is_empty (lom : LOM) : Bool := lom.len == 0

/-- Rust `Iterator::step_by`: keep the first element, then every step-th
one. -/
def stepBy (step : Nat) : List ℚ → List ℚ
  | [] => []
  | x :: xs => x :: stepBy step (xs.drop (step - 1))
termination_by l => l.length
decreasing_by
  simp only [List.length_drop, List.length_cons]
  omega

/-- The per-channel sample extraction `iter().skip(i).step_by(n_item)`
common to the Stats and OpticalMetrics methods. -/
def channelSamples (nItem : Nat) (buf : List ℚ) (i : Nat) : List ℚ :=
  stepBy nItem (buf.drop i)

/-- `Stats::mean`: per channel, the mean over the last `window` samples
(all samples when no window); the `assert!(n_total >= n_sample)` panic is
`none`. -/
def statsMean (nItem : Nat) (buf : List ℚ) (window : Option Nat) :
    Option (List ℚ) :=
  let nTotal := buf.length / nItem
  let w := window.getD nTotal
  if nTotal ≥ w then
    some ((List.range nItem).map (fun i =>
      (((channelSamples nItem buf i).drop (nTotal - w)).sum) / (w : ℚ)))
  else none

/-- `Stats::var`: per channel, the mean over the window first, then the
fold of squared deviations, divided by the window size; assertion panic is
`none`. -/
def statsVar (nItem : Nat) (buf : List ℚ) (window : Option Nat) :
    Option (List ℚ) :=
  let nTotal := buf.length / nItem
  let w := window.getD nTotal
  if nTotal ≥ w then
    some (((List.range nItem).zip ((statsMean nItem buf window).getD [])).map
      (fun p =>
        ((((channelSamples nItem buf p.1).drop (nTotal - w)).map
          (fun x => x - p.2)).foldl (fun a x => a + x * x) 0) / (w : ℚ)))
  else none

/-- `OpticalMetrics::time_wise`: per channel, the trailing window of that
channel's samples, channels concatenated in order; assertion panic is
`none`. -/
def timeWise (nItem : Nat) (buf : List ℚ) (window : Option Nat) :
    Option (List ℚ) :=
  let nTotal := buf.length / nItem
  let w := window.getD nTotal
  if nTotal ≥ w then
    some (((List.range nItem).map (fun i =>
      (channelSamples nItem buf i).drop (nTotal - w))).flatten)
  else none

/-! ## Helper lemmas on lists and on the matrix embedding -/

theorem getD_map_range {α : Type} (f : Nat → α) {n i : Nat} (h : i < n) (d : α) :
    ((List.range n).map f).getD i d = f i := by
  rw [List.getD_eq_getElem _ _ (by simpa using h)]
  simp

theorem getD_drop (l : List ℚ) (m k : Nat) (d : ℚ) :
    (l.drop m).getD k d = l.getD (m + k) d := by
  rw [List.getD_eq_getElem?_getD, List.getD_eq_getElem?_getD, List.getElem?_drop]

theorem getD_append_shift (a rest : List ℚ) (m : Nat) (d : ℚ) :
    (a ++ rest).getD (a.length + m) d = rest.getD m d := by
  rw [List.getD_eq_getElem?_getD, List.getD_eq_getElem?_getD,
    List.getElem?_append_right (Nat.le_add_right _ _)]
  simp

theorem flatten_length_const (c : Nat) (L : List (List ℚ))
    (h : ∀ l ∈ L, l.length = c) : L.flatten.length = L.length * c := by
  induction L with
  | nil => simp
  | cons a L ih =>
    simp only [List.flatten_cons, List.length_append, List.length_cons]
    rw [ih (fun l hl => h l (List.mem_cons_of_mem _ hl)), h a (List.mem_cons_self _ _)]
    ring

theorem flatten_getD_const (c : Nat) (d : ℚ) (L : List (List ℚ)) :
    ∀ (j i : Nat), (∀ l ∈ L, l.length = c) → i < c → j < L.length →
      L.flatten.getD (i + c * j) d = (L.getD j []).getD i d := by
  induction L with
  | nil => intro j i _ _ hj; simp at hj
  | cons a L ih =>
    intro j i hall hi hj
    have ha : a.length = c := hall a (List.mem_cons_self _ _)
    cases j with
    | zero =>
      simp only [Nat.mul_zero, Nat.add_zero, List.flatten_cons, List.getD_cons_zero]
      rw [List.getD_eq_getElem?_getD, List.getD_eq_getElem?_getD,
        List.getElem?_append_left (by omega)]
    | succ j =>
      have hshift : i + c * (j + 1) = a.length + (i + c * j) := by rw [ha]; ring
      rw [List.flatten_cons, hshift, getD_append_shift, List.getD_cons_succ]
      exact ih j i (fun l hl => hall l (List.mem_cons_of_mem _ hl)) hi
        (by simpa using Nat.lt_of_succ_lt_succ hj)

theorem mul_data_length (a b : DMat) : (a.mul b).data.length = b.ncols * a.nrows := by
  show (((List.range b.ncols).map _).flatten).length = _
  rw [flatten_length_const a.nrows _ (by
    intro l hl
    rcases List.mem_map.mp hl with ⟨j, _, rfl⟩
    simp)]
  simp

theorem mul_data_getD (a b : DMat) (i j : Nat) (hi : i < a.nrows) (hj : j < b.ncols) :
    (a.mul b).data.getD (i + a.nrows * j) 0 =
      ((List.range a.ncols).map (fun l => a.entry i l * b.entry l j)).sum := by
  show (((List.range b.ncols).map _).flatten).getD _ _ = _
  rw [flatten_getD_const a.nrows 0 _ j i (by
      intro l hl
      rcases List.mem_map.mp hl with ⟨j2, _, rfl⟩
      simp) hi (by simpa using hj)]
  rw [getD_map_range _ hj]
  exact getD_map_range _ hi 0

theorem mul_zero_right (a b : DMat)
    (hb : ∀ l j2, l < a.ncols → j2 < b.ncols → b.entry l j2 = 0) :
    (a.mul b).data = List.replicate (b.ncols * a.nrows) 0 := by
  rw [List.eq_replicate_iff]
  refine ⟨mul_data_length a b, ?_⟩
  intro x hx
  rcases List.mem_flatten.mp hx with ⟨l, hl, hxl⟩
  rcases List.mem_map.mp hl with ⟨j, hjmem, rfl⟩
  rcases List.mem_map.mp hxl with ⟨i, _, rfl⟩
  refine List.sum_eq_zero ?_
  intro y hy
  rcases List.mem_map.mp hy with ⟨l2, hl2, rfl⟩
  rw [hb l2 j (List.mem_range.mp hl2) (List.mem_range.mp hjmem), mul_zero]

theorem getD_replicate_zero (n k : Nat) :
    (List.replicate n (0 : ℚ)).getD k 0 = 0 := by
  rw [List.getD_eq_getElem?_getD, List.getElem?_replicate]
  split <;> rfl

theorem stepBy_getD (n : Nat) (hn : 0 < n) (d : ℚ) (l : List ℚ) :
    ∀ k, (stepBy n l).getD k d = l.getD (k * n) d := by
  induction l using stepBy.induct n with
  | case1 => intro k; simp [stepBy]
  | case2 x xs ih =>
    intro k
    cases k with
    | zero => simp [stepBy]
    | succ k =>
      have h1 : (stepBy n (x :: xs)).getD (k + 1) d =
          (stepBy n (List.drop (n - 1) xs)).getD k d := by
        rw [stepBy]; exact List.getD_cons_succ
      rw [h1, ih k, getD_drop]
      have h2 : (k + 1) * n = (n - 1 + k * n) + 1 := by
        have h3 : (k + 1) * n = k * n + n := by ring
        generalize k * n = m at h3 ⊢
        omega
      rw [h2, List.getD_cons_succ]

theorem stepBy_length (n : Nat) (hn : 0 < n) (l : List ℚ) :
    (stepBy n l).length = (l.length + n - 1) / n := by
  induction l using stepBy.induct n with
  | case1 =>
    rw [stepBy]
    simp only [List.length_nil, Nat.zero_add]
    exact (Nat.div_eq_of_lt (by omega)).symm
  | case2 x xs ih =>
    rw [stepBy, List.length_cons, ih, List.length_drop, List.length_cons]
    have h2 : xs.length + 1 + n - 1 = xs.length + n := by omega
    rw [h2, Nat.add_div_right _ hn]
    rcases le_or_lt (n - 1) xs.length with h | h
    · have h1 : xs.length - (n - 1) + n - 1 = xs.length := by omega
      rw [h1]
    · have h1 : xs.length - (n - 1) + n - 1 = n - 1 := by omega
      rw [h1, Nat.div_eq_of_lt (by omega), Nat.div_eq_of_lt (by omega)]

theorem channelSamples_length (nItem nTotal i : Nat) (buf : List ℚ)
    (hn : 0 < nItem) (hlen : buf.length = nItem * nTotal) (hi : i < nItem) :
    (channelSamples nItem buf i).length = nTotal := by
  unfold channelSamples
  rw [stepBy_length nItem hn, List.length_drop, hlen]
  cases nTotal with
  | zero => exact Nat.div_eq_of_lt (by omega)
  | succ t =>
    have hbig : nItem * 1 ≤ nItem * (t + 1) :=
      Nat.mul_le_mul_left nItem (by omega)
    have h1 : nItem * (t + 1) - i + nItem - 1 =
        nItem * (t + 1) + (nItem - 1 - i) := by omega
    rw [h1, Nat.mul_add_div hn, Nat.div_eq_of_lt (by omega), Nat.add_zero]

theorem channelWindow_getD (nItem nTotal w i k : Nat) (buf : List ℚ)
    (hn : 0 < nItem) :
    ((channelSamples nItem buf i).drop (nTotal - w)).getD k 0 =
      buf.getD (i + (nTotal - w + k) * nItem) 0 := by
  unfold channelSamples
  rw [getD_drop, stepBy_getD nItem hn, getD_drop]

theorem channelWindow_eq (nItem nTotal w i : Nat) (buf : List ℚ)
    (hn : 0 < nItem) (hlen : buf.length = nItem * nTotal) (hw : w ≤ nTotal)
    (hi : i < nItem) :
    (channelSamples nItem buf i).drop (nTotal - w) =
      (List.range w).map (fun k => buf.getD (i + (nTotal - w + k) * nItem) 0) := by
  apply List.ext_getElem
  · rw [List.length_drop, channelSamples_length nItem nTotal i buf hn hlen hi]
    simp
    omega
  · intro k h1 h2
    rw [← List.getD_eq_getElem _ 0 h1, ← List.getD_eq_getElem _ 0 h2,
      channelWindow_getD nItem nTotal w i k buf hn,
      getD_map_range _ (by simpa using h2)]

theorem foldl_add_sq (l : List ℚ) :
    ∀ a : ℚ, l.foldl (fun a x => a + x * x) a = a + (l.map (fun x => x * x)).sum := by
  induction l with
  | nil => intro a; simp
  | cons x xs ih =>
    intro a
    simp only [List.foldl_cons, List.map_cons, List.sum_cons, ih]
    ring

theorem zip_range_map_getD {β : Type} (n : Nat) (ms : List ℚ) (f : Nat × ℚ → β)
    (i : Nat) (d : β) (d2 : ℚ) (hi : i < n) (hm : i < ms.length) :
    (((List.range n).zip ms).map f).getD i d = f (i, ms.getD i d2) := by
  have hz : i < ((List.range n).zip ms).length := by
    rw [List.length_zip]
    simp
    omega
  rw [List.getD_eq_getElem _ _ (by simpa using hz)]
  simp only [List.getElem_map, List.getElem_zip, List.getElem_range]
  rw [List.getD_eq_getElem _ _ hm]

theorem oseq_iff_kind (a b : OpticalSensitivity) :
    oseq a b = true ↔ a.kind = b.kind := by
  cases a <;> cases b <;> simp [oseq, OpticalSensitivity.kind]

theorem oseq_kind_congr (k1 k2 s : OpticalSensitivity) (h : k1.kind = k2.kind) :
    oseq k1 s = oseq k2 s := by
  cases k1 <;> cases k2 <;> simp [OpticalSensitivity.kind] at h <;> cases s <;> rfl

theorem expandWavefront_spec (mask : List Bool) :
    ∀ ws : List ℚ, mask.countP id ≤ ws.length →
      ∃ l, expandWavefront mask ws = some l ∧ l.length = mask.length ∧
        ∀ i, l.getD i 0 =
          if mask.getD i false = true then ws.getD ((mask.take i).countP id) 0
          else 0 := by
  induction mask with
  | nil =>
    intro ws _
    refine ⟨[], rfl, rfl, ?_⟩
    intro i
    simp [List.getD_eq_getElem?_getD]
  | cons b ms ih =>
    intro ws h
    cases b with
    | true =>
      cases ws with
      | nil => simp [List.countP_cons] at h
      | cons w ws2 =>
        have h2 : ms.countP id ≤ ws2.length := by
          simp [List.countP_cons] at h
          omega
        rcases ih ws2 h2 with ⟨l, hl, hlen, hget⟩
        refine ⟨w :: l, ?_, by simp [hlen], ?_⟩
        · rw [expandWavefront, hl]
          rfl
        · intro i
          cases i with
          | zero => simp
          | succ i =>
            rw [List.getD_cons_succ, hget i, List.getD_cons_succ,
              List.take_succ_cons]
            have hc : List.countP id (true :: ms.take i) =
                (ms.take i).countP id + 1 := by
              simp [List.countP_cons]
            rw [hc, List.getD_cons_succ]
    | false =>
      have h2 : ms.countP id ≤ ws.length := by
        simpa [List.countP_cons] using h
      rcases ih ws h2 with ⟨l, hl, hlen, hget⟩
      refine ⟨(0 : ℚ) :: l, ?_, by simp [hlen], ?_⟩
      · rw [expandWavefront, hl]
        rfl
      · intro i
        cases i with
        | zero => simp
        | succ i =>
          rw [List.getD_cons_succ, hget i, List.getD_cons_succ,
            List.take_succ_cons]
          have hc : List.countP id (false :: ms.take i) =
              (ms.take i).countP id := by
            simp [List.countP_cons]
          rw [hc]

/-! ## Claims -/

/-- C1: for every sensitivity of kind TipTilt, SegmentTipTilt, SegmentPiston
or Wavefront and every 84 x N motion matrix, `into_optics` returns the dense
product sensitivity [rows x 84] times motion [84 x N], flattened
column-major into a flat vector of length rows * N: the value for channel i
at time sample j sits at flat index `i + rows * j`, so each time sample's
rows channel values are contiguous (channel-minor, time-major). -/
theorem into_optics_is_dense_product_column_major
    (s : OpticalSensitivity) (rbm : DMat) (i j : Nat)
    (hkind : s.kind = .tipTilt ∨ s.kind = .segmentTipTilt ∨
      s.kind = .segmentPiston ∨ s.kind = .wavefront)
    (hpay : s.payload.length = s.rows * 84)
    (hr : rbm.nrows = 84) (hdata : rbm.data.length = 84 * rbm.ncols)
    (hi : i < s.rows) (hj : j < rbm.ncols) :
    (into_optics s rbm).isSome = true ∧
    ((into_optics s rbm).getD []).length = s.rows * rbm.ncols ∧
    ((into_optics s rbm).getD []).getD (i + s.rows * j) 0 =
      ((List.range 84).map
        (fun l => s.payload.getD (i + s.rows * l) 0 * rbm.entry l j)).sum := by
  cases s with
  | SegmentMask v => simp [OpticalSensitivity.kind] at hkind
  | PupilMask v => simp [OpticalSensitivity.kind] at hkind
  | TipTilt v =>
    simp only [OpticalSensitivity.rows, OpticalSensitivity.payload] at hi ⊢
    refine ⟨rfl, ?_, ?_⟩
    · show (DMat.mul ⟨2, 84, v⟩ rbm).data.length = _
      rw [mul_data_length]
      exact Nat.mul_comm _ _
    · show (DMat.mul ⟨2, 84, v⟩ rbm).data.getD _ _ = _
      rw [mul_data_getD ⟨2, 84, v⟩ rbm i j hi hj]
      rfl
  | SegmentTipTilt v =>
    simp only [OpticalSensitivity.rows, OpticalSensitivity.payload] at hi ⊢
    refine ⟨rfl, ?_, ?_⟩
    · show (DMat.mul ⟨14, 84, v⟩ rbm).data.length = _
      rw [mul_data_length]
      exact Nat.mul_comm _ _
    · show (DMat.mul ⟨14, 84, v⟩ rbm).data.getD _ _ = _
      rw [mul_data_getD ⟨14, 84, v⟩ rbm i j hi hj]
      rfl
  | SegmentPiston v =>
    simp only [OpticalSensitivity.rows, OpticalSensitivity.payload] at hi ⊢
    refine ⟨rfl, ?_, ?_⟩
    · show (DMat.mul ⟨7, 84, v⟩ rbm).data.length = _
      rw [mul_data_length]
      exact Nat.mul_comm _ _
    · show (DMat.mul ⟨7, 84, v⟩ rbm).data.getD _ _ = _
      rw [mul_data_getD ⟨7, 84, v⟩ rbm i j hi hj]
      rfl
  | Wavefront v =>
    simp only [OpticalSensitivity.rows, OpticalSensitivity.payload] at hi ⊢
    refine ⟨rfl, ?_, ?_⟩
    · show (DMat.mul ⟨v.length / 84, 84, v⟩ rbm).data.length = _
      rw [mul_data_length]
      exact Nat.mul_comm _ _
    · show (DMat.mul ⟨v.length / 84, 84, v⟩ rbm).data.getD _ _ = _
      rw [mul_data_getD ⟨v.length / 84, 84, v⟩ rbm i j hi hj]
      rfl

/-- Witness for C1 at a concrete input: the TipTilt sensitivity of all ones
(168 = 2 x 84 values) applied to a single all-ones motion sample puts the
dot product 84 at flat index 0, and the result has one 2-wide chunk. -/
theorem into_optics_is_dense_product_column_major_witness :
    (into_optics (.TipTilt (List.replicate 168 (1 : ℚ)))
      ⟨84, 1, List.replicate 84 (1 : ℚ)⟩).isSome = true ∧
    ((into_optics (.TipTilt (List.replicate 168 (1 : ℚ)))
      ⟨84, 1, List.replicate 84 (1 : ℚ)⟩).getD []).length = 2 ∧
    ((into_optics (.TipTilt (List.replicate 168 (1 : ℚ)))
      ⟨84, 1, List.replicate 84 (1 : ℚ)⟩).getD []).getD 0 0 = 84 := by
  have h := into_optics_is_dense_product_column_major
    (.TipTilt (List.replicate 168 (1 : ℚ))) ⟨84, 1, List.replicate 84 (1 : ℚ)⟩
    0 0 (Or.inl rfl)
    (by norm_num [OpticalSensitivity.payload, OpticalSensitivity.rows])
    rfl (by norm_num) (by decide) (by decide)
  refine ⟨h.1, ?_, ?_⟩
  · have h1 := h.2.1
    simp only [OpticalSensitivity.rows] at h1
    exact h1
  · have h2 := h.2.2
    simp only [OpticalSensitivity.rows, OpticalSensitivity.payload,
      Nat.mul_zero, Nat.add_zero] at h2
    rw [h2]
    have hterm : ∀ l ∈ List.range 84,
        (List.replicate 168 (1 : ℚ)).getD (0 + 2 * l) 0 *
          (⟨84, 1, List.replicate 84 (1 : ℚ)⟩ : DMat).entry l 0 = 1 := by
      intro l hl
      have hl84 : l < 84 := List.mem_range.mp hl
      have e1 : (List.replicate 168 (1 : ℚ)).getD (0 + 2 * l) 0 = 1 := by
        rw [List.getD_eq_getElem _ _ (by rw [List.length_replicate]; omega)]
        exact List.getElem_replicate _ _
      have e2 : (⟨84, 1, List.replicate 84 (1 : ℚ)⟩ : DMat).entry l 0 = 1 := by
        show (List.replicate 84 (1 : ℚ)).getD (l + 84 * 0) 0 = 1
        rw [List.getD_eq_getElem _ _ (by rw [List.length_replicate]; omega)]
        exact List.getElem_replicate _ _
      rw [e1, e2, mul_one]
    calc ((List.range 84).map
            (fun l => (List.replicate 168 (1 : ℚ)).getD (0 + 2 * l) 0 *
              (⟨84, 1, List.replicate 84 (1 : ℚ)⟩ : DMat).entry l 0)).sum
        = ((List.range 84).map (fun _ => (1 : ℚ))).sum := by
          apply congrArg
          exact List.map_congr_left hterm
      _ = 84 := by
          simp only [List.map_const', List.length_range, List.sum_replicate]
          norm_num

/-- C2, evaluation at the failing input: with segment mask [1, 2] and the
single-sample masked wavefront [3, 5], `segment_wavefront` consumes the
whole wavefront iterator while collecting segment 1 (the Rust `by_ref` zip),
so segment 2 gets nothing: the buckets are [[3], [], [], [], [], [], []],
their concatenation has length 1, not the masked wavefront length 2, and
the value 5 at index 1 (segment 2) appears in no bucket. -/
theorem segment_wavefront_drops_later_segments :
    segment_wavefront [1, 2] [3, 5] = [[3], [], [], [], [], [], []] ∧
    (segment_wavefront [1, 2] [3, 5]).flatten.length = 1 ∧
    ([(3 : ℚ), 5].length = 2 ∧ ¬ (5 : ℚ) ∈ (segment_wavefront [1, 2] [3, 5]).flatten) := by
  refine ⟨rfl, rfl, rfl, by decide⟩

/-- C3, counterexample: a single sample whose M1 part has 14 segment vectors
of 6 values (84 values, not 42) and whose M2 part is empty is accepted by
the FromIterator construction (the total flattened length 84 is a multiple
of 84), producing an 84 x 1 series; the claim that such a sample is
rejected at construction is false. -/
theorem rbm_from_iter_accepts_unbalanced_sample :
    (rbmFromNestedIter
      [(List.replicate 14 (List.replicate 6 (1 : ℚ)), [])]).isSome = true := by
  rfl

/-- C3, amended: construction from either iterator fails exactly when the
total number of values supplied over all samples and both mirrors is not a
multiple of 84; the per-mirror split within a sample is never checked. -/
theorem rbm_from_iter_checks_only_total_length
    (iter : List (List (List ℚ) × List (List ℚ)))
    (iter2 : List (List ℚ × List ℚ)) :
    ((rbmFromNestedIter iter).isSome = true ↔
      ((iter.map (fun p =>
        (p.1.map List.length).sum + (p.2.map List.length).sum)).sum) % 84 = 0) ∧
    ((rbmFromSliceIter iter2).isSome = true ↔
      ((iter2.map (fun p => p.1.length + p.2.length)).sum) % 84 = 0) := by
  constructor
  · have hlen : (iter.flatMap (fun p => p.1.flatten ++ p.2.flatten)).length =
        (iter.map (fun p =>
          (p.1.map List.length).sum + (p.2.map List.length).sum)).sum := by
      rw [List.length_flatMap]
      apply congrArg
      apply List.map_congr_left
      intro p _
      simp [Function.comp, List.length_flatten]
    have key : (rbmFromNestedIter iter).isSome = true ↔
        (iter.flatMap fun p => p.1.flatten ++ p.2.flatten).length % 84 = 0 := by
      simp only [rbmFromNestedIter]
      by_cases hc :
          (iter.flatMap fun p => p.1.flatten ++ p.2.flatten).length % 84 = 0
      · rw [if_pos hc]
        exact iff_of_true rfl hc
      · rw [if_neg hc]
        exact iff_of_false (by simp) hc
    rw [key, hlen]
  · have hlen : (iter2.flatMap (fun p => p.1 ++ p.2)).length =
        (iter2.map (fun p => p.1.length + p.2.length)).sum := by
      rw [List.length_flatMap]
      apply congrArg
      apply List.map_congr_left
      intro p _
      simp [Function.comp]
    have key : (rbmFromSliceIter iter2).isSome = true ↔
        (iter2.flatMap fun p => p.1 ++ p.2).length % 84 = 0 := by
      simp only [rbmFromSliceIter]
      by_cases hc : (iter2.flatMap fun p => p.1 ++ p.2).length % 84 = 0
      · rw [if_pos hc]
        exact iff_of_true rfl hc
      · rw [if_neg hc]
        exact iff_of_false (by simp) hc
    rw [key, hlen]

/-- C4: for a single-time-sample motion series, `LOM::wavefront` returns one
entry per position of the full pupil grid (the PupilMask length); a true
position receives the next masked-wavefront value in order (the one whose
rank equals the number of true mask entries before it), a false position
receives 0. -/
theorem lom_wavefront_expands_pupil_mask
    (sens : OpticalSensitivities) (wv : List ℚ) (mask : List Bool)
    (rbm : DMat) (i : Nat)
    (hfind : osIndex sens (.Wavefront []) = some (.Wavefront wv))
    (hmask : osIndex sens (.PupilMask []) = some (.PupilMask mask))
    (hP : wv.length = mask.countP id * 84)
    (hc : rbm.ncols = 1) :
    (lomWavefront sens rbm).isSome = true ∧
    ((lomWavefront sens rbm).getD []).length = mask.length ∧
    (mask.getD i false = false →
      ((lomWavefront sens rbm).getD []).getD i 0 = 0) ∧
    (mask.getD i false = true →
      ((lomWavefront sens rbm).getD []).getD i 0 =
        ((into_optics (.Wavefront wv) rbm).getD []).getD
          ((mask.take i).countP id) 0) := by
  have hrows : wv.length / 84 = mask.countP id := by
    rw [hP]
    exact Nat.mul_div_cancel _ (by norm_num)
  have hmwlen : (DMat.mul ⟨wv.length / 84, 84, wv⟩ rbm).data.length =
      mask.countP id := by
    rw [mul_data_length, hc, hrows]
    simp
  have hcount : mask.countP id ≤
      (DMat.mul ⟨wv.length / 84, 84, wv⟩ rbm).data.length := by
    rw [hmwlen]
  rcases expandWavefront_spec mask _ hcount with ⟨l, hl, hlen, hget⟩
  have hres : lomWavefront sens rbm = some l := by
    unfold lomWavefront
    rw [hfind, hmask]
    show (into_optics (.Wavefront wv) rbm).bind
      (fun w => expandWavefront mask w) = some l
    rw [show into_optics (.Wavefront wv) rbm =
      some (DMat.mul ⟨wv.length / 84, 84, wv⟩ rbm).data from rfl]
    simpa using hl
  refine ⟨by rw [hres]; rfl, ?_, ?_, ?_⟩
  · rw [hres]
    exact hlen
  · intro hfalse
    rw [hres]
    show l.getD i 0 = 0
    rw [hget i, hfalse]
    simp
  · intro htrue
    rw [hres]
    show l.getD i 0 = _
    rw [hget i, htrue]
    rfl

/-- Witness for C4 at a concrete input: a store with an 84-long Wavefront
sensitivity (one illuminated point) and the pupil mask [true, false], on a
single zero motion sample: the output has length 2 and position 1 (mask
false) holds 0. -/
theorem lom_wavefront_expands_pupil_mask_witness :
    (lomWavefront
      [.Wavefront (List.replicate 84 (1 : ℚ)), .PupilMask [true, false]]
      ⟨84, 1, List.replicate 84 (0 : ℚ)⟩).isSome = true ∧
    ((lomWavefront
      [.Wavefront (List.replicate 84 (1 : ℚ)), .PupilMask [true, false]]
      ⟨84, 1, List.replicate 84 (0 : ℚ)⟩).getD []).length = 2 ∧
    ((lomWavefront
      [.Wavefront (List.replicate 84 (1 : ℚ)), .PupilMask [true, false]]
      ⟨84, 1, List.replicate 84 (0 : ℚ)⟩).getD []).getD 1 0 = 0 := by
  have h := lom_wavefront_expands_pupil_mask
    [.Wavefront (List.replicate 84 (1 : ℚ)), .PupilMask [true, false]]
    (List.replicate 84 (1 : ℚ)) [true, false]
    ⟨84, 1, List.replicate 84 (0 : ℚ)⟩ 1 rfl rfl (by rfl) rfl
  exact ⟨h.1, h.2.1, h.2.2.1 rfl⟩

/-- C5: sensitivity lookup is keyed on variant identity only: two keys of
the same variant (any payloads, including a zero-length placeholder) index
the same stored element; a returned element is a member of the store of the
key's variant; the lookup panics (returns none) exactly when no element of
that variant is present. -/
theorem os_index_is_variant_keyed
    (store : OpticalSensitivities) (k1 k2 : OpticalSensitivity)
    (hk : k1.kind = k2.kind) :
    osIndex store k1 = osIndex store k2 ∧
    (∀ s, osIndex store k1 = some s → s ∈ store ∧ s.kind = k1.kind) ∧
    (osIndex store k1 = none ↔
      store.countP (fun s => oseq k1 s) = 0) := by
  refine ⟨?_, ?_, ?_⟩
  · unfold osIndex
    have hfun : (fun s => oseq k1 s) = (fun s => oseq k2 s) := by
      funext s
      exact oseq_kind_congr k1 k2 s hk
    rw [hfun]
  · intro s hs
    exact ⟨List.mem_of_find?_eq_some hs,
      ((oseq_iff_kind k1 s).mp (List.find?_some hs)).symm⟩
  · unfold osIndex
    rw [List.find?_eq_none, List.countP_eq_zero]

/-- Witness for C5 at a concrete input: in the store holding one
SegmentPiston matrix [9], the zero-length placeholder key and a key with
payload [1, 2, 3] index the same element, and the found element is the
stored SegmentPiston member. -/
theorem os_index_is_variant_keyed_witness :
    osIndex [OpticalSensitivity.SegmentPiston [9]]
        (.SegmentPiston []) =
      osIndex [OpticalSensitivity.SegmentPiston [9]]
        (.SegmentPiston [1, 2, 3]) ∧
    (OpticalSensitivity.SegmentPiston [9] ∈
        [OpticalSensitivity.SegmentPiston [9]] ∧
      (OpticalSensitivity.SegmentPiston [9]).kind =
        (OpticalSensitivity.SegmentPiston ([] : List ℚ)).kind) := by
  have h := os_index_is_variant_keyed
    [OpticalSensitivity.SegmentPiston [9]]
    (.SegmentPiston []) (.SegmentPiston [1, 2, 3]) rfl
  exact ⟨h.1, h.2.1 (OpticalSensitivity.SegmentPiston [9]) rfl⟩

/-- C6: requesting a statistics window larger than the number of available
time samples fails the precondition (the assertion panic, modelled as none)
for mean, var and time_wise alike, before any statistic is computed. -/
theorem stats_window_precondition
    (nItem w : Nat) (buf : List ℚ) (h : buf.length / nItem < w) :
    statsMean nItem buf (some w) = none ∧
    statsVar nItem buf (some w) = none ∧
    timeWise nItem buf (some w) = none := by
  refine ⟨?_, ?_, ?_⟩
  · simp only [statsMean, Option.getD_some]
    rw [if_neg (by omega)]
  · simp only [statsVar, Option.getD_some]
    rw [if_neg (by omega)]
  · simp only [timeWise, Option.getD_some]
    rw [if_neg (by omega)]

/-- Witness for C6 at the spec scenario: mean(Some 5), var(Some 5) and
time_wise(Some 5) on a 2-channel 3-sample series all fail. -/
theorem stats_window_precondition_witness :
    statsMean 2 [1, 2, 3, 4, 5, 6] (some 5) = none ∧
    statsVar 2 [1, 2, 3, 4, 5, 6] (some 5) = none ∧
    timeWise 2 [1, 2, 3, 4, 5, 6] (some 5) = none :=
  stats_window_precondition 2 5 [1, 2, 3, 4, 5, 6] (by norm_num)

/-- The trailing window sample of the spec: channel i's sample number
(nTotal - w + k) of the buffer, read at flat index
i + (nTotal - w + k) * nItem (channel-minor storage). -/
def specTrailingSample (nItem nTotal w : Nat) (buf : List ℚ) (i k : Nat) : ℚ :=
  buf.getD (i + (nTotal - w + k) * nItem) 0

/-- The spec formula for the windowed per-channel mean: the sum of the last
w samples of channel i divided by w. -/
def specTrailingMean (nItem nTotal w : Nat) (buf : List ℚ) (i : Nat) : ℚ :=
  ((List.range w).map (specTrailingSample nItem nTotal w buf i)).sum / (w : ℚ)

/-- The spec formula for the windowed per-channel population variance:
two-pass, sum of squared deviations from the windowed mean divided by w
(not w - 1). -/
def specTrailingPopVariance (nItem nTotal w : Nat) (buf : List ℚ) (i : Nat) : ℚ :=
  ((List.range w).map (fun k =>
    (specTrailingSample nItem nTotal w buf i k -
        specTrailingMean nItem nTotal w buf i) *
      (specTrailingSample nItem nTotal w buf i k -
        specTrailingMean nItem nTotal w buf i))).sum / (w : ℚ)

/-- C7: for an admissible window w, `Stats::var` returns per channel the
population variance of the trailing w samples (mean first, then squared
deviations, divided by w); with no window the same formula is applied over
all samples. -/
theorem stats_var_is_trailing_population_variance
    (nItem nTotal w i : Nat) (buf : List ℚ)
    (hn : 0 < nItem) (hlen : buf.length = nItem * nTotal)
    (hw : w ≤ nTotal) (hi : i < nItem) :
    ((statsVar nItem buf (some w)).getD []).getD i 0 =
      specTrailingPopVariance nItem nTotal w buf i ∧
    statsVar nItem buf none = statsVar nItem buf (some nTotal) := by
  have hq : buf.length / nItem = nTotal := by
    rw [hlen, Nat.mul_div_cancel_left _ hn]
  constructor
  · have hwin := channelWindow_eq nItem nTotal w i buf hn hlen hw hi
    have hmean : statsMean nItem buf (some w) =
        some ((List.range nItem).map (fun i2 =>
          (((channelSamples nItem buf i2).drop (nTotal - w)).sum) / (w : ℚ))) := by
      simp only [statsMean, Option.getD_some, hq]
      rw [if_pos hw]
    have hvar : statsVar nItem buf (some w) =
        some (((List.range nItem).zip
            ((statsMean nItem buf (some w)).getD [])).map (fun p =>
          ((((channelSamples nItem buf p.1).drop (nTotal - w)).map
            (fun x => x - p.2)).foldl (fun a x => a + x * x) 0) / (w : ℚ))) := by
      simp only [statsVar, Option.getD_some, hq]
      rw [if_pos hw]
    rw [hvar, Option.getD_some]
    have hmlen : ((statsMean nItem buf (some w)).getD []).length = nItem := by
      rw [hmean, Option.getD_some, List.length_map, List.length_range]
    rw [zip_range_map_getD nItem _ _ i 0 0 hi (by rw [hmlen]; exact hi)]
    have hmval : ((statsMean nItem buf (some w)).getD []).getD i 0 =
        specTrailingMean nItem nTotal w buf i := by
      rw [hmean, Option.getD_some, getD_map_range _ hi, hwin]
      unfold specTrailingMean
      rfl
    rw [hmval]
    show ((((channelSamples nItem buf i).drop (nTotal - w)).map
        (fun x => x - specTrailingMean nItem nTotal w buf i)).foldl
          (fun a x => a + x * x) 0) / (w : ℚ) = _
    rw [hwin, foldl_add_sq, zero_add, List.map_map, List.map_map]
    unfold specTrailingPopVariance
    apply congrArg (fun q => q / (w : ℚ))
    apply congrArg
    apply List.map_congr_left
    intro k _
    simp [Function.comp, specTrailingSample]
  · simp only [statsVar, statsMean, Option.getD_some, Option.getD_none, hq]

/-- Witness for C7 at a concrete input: the 1-channel series [1, 2, 3] with
window 2 has variance ((2 - 5/2)^2 + (3 - 5/2)^2) / 2 = 1/4, and the
unwindowed variance agrees with window 3. -/
theorem stats_var_is_trailing_population_variance_witness :
    ((statsVar 1 [1, 2, 3] (some 2)).getD []).getD 0 0 = 1 / 4 ∧
    statsVar 1 [1, 2, 3] none = statsVar 1 [1, 2, 3] (some 3) := by
  have h := stats_var_is_trailing_population_variance 1 3 2 0 [1, 2, 3]
    (by norm_num) (by norm_num) (by norm_num) (by norm_num)
  refine ⟨?_, h.2⟩
  rw [h.1]
  unfold specTrailingPopVariance specTrailingMean specTrailingSample
  norm_num [List.range_succ]

/-- C8: for an admissible window w, `time_wise` returns the trailing w
samples re-flattened channel-major then time-minor: the output has length
nItem * w and its entry at k + w * i is channel i's sample nTotal - w + k;
with no window the same holds with w = nTotal. -/
theorem time_wise_is_channel_major_transpose
    (nItem nTotal w i k : Nat) (buf : List ℚ)
    (hn : 0 < nItem) (hlen : buf.length = nItem * nTotal)
    (hw : w ≤ nTotal) (hi : i < nItem) (hk : k < w) :
    ((timeWise nItem buf (some w)).getD []).length = nItem * w ∧
    ((timeWise nItem buf (some w)).getD []).getD (k + w * i) 0 =
      specTrailingSample nItem nTotal w buf i k ∧
    timeWise nItem buf none = timeWise nItem buf (some nTotal) := by
  have hq : buf.length / nItem = nTotal := by
    rw [hlen, Nat.mul_div_cancel_left _ hn]
  have htw : timeWise nItem buf (some w) =
      some (((List.range nItem).map (fun i2 =>
        (channelSamples nItem buf i2).drop (nTotal - w))).flatten) := by
    simp only [timeWise, Option.getD_some, hq]
    rw [if_pos hw]
  have hall : ∀ l ∈ (List.range nItem).map (fun i2 =>
      (channelSamples nItem buf i2).drop (nTotal - w)), l.length = w := by
    intro l hl
    rcases List.mem_map.mp hl with ⟨i2, hi2, rfl⟩
    rw [List.length_drop, channelSamples_length nItem nTotal i2 buf hn hlen
      (List.mem_range.mp hi2)]
    omega
  refine ⟨?_, ?_, ?_⟩
  · rw [htw, Option.getD_some, flatten_length_const w _ hall]
    simp [Nat.mul_comm]
  · rw [htw, Option.getD_some,
      flatten_getD_const w 0 _ i k hall hk (by simpa using hi),
      getD_map_range _ hi]
    exact channelWindow_getD nItem nTotal w i k buf hn
  · simp only [timeWise, Option.getD_some, Option.getD_none, hq]

/-- Witness for C8 at the spec scenario: the 2-channel 3-sample buffer
[c0s0, c1s0, c0s1, c1s1, c0s2, c1s2] = [1, 2, 3, 4, 5, 6] with full window
3 has length 6 and carries channel 1's first sample (value 2) at transposed
index 0 + 3 * 1 = 3, and time_wise with no window agrees. -/
theorem time_wise_is_channel_major_transpose_witness :
    ((timeWise 2 [1, 2, 3, 4, 5, 6] (some 3)).getD []).length = 6 ∧
    ((timeWise 2 [1, 2, 3, 4, 5, 6] (some 3)).getD []).getD 3 0 = 2 ∧
    timeWise 2 [1, 2, 3, 4, 5, 6] none = timeWise 2 [1, 2, 3, 4, 5, 6] (some 3) := by
  have h := time_wise_is_channel_major_transpose 2 3 3 1 0 [1, 2, 3, 4, 5, 6]
    (by norm_num) (by norm_num) (by norm_num) (by norm_num) (by norm_num)
  refine ⟨h.1, ?_, h.2.2⟩
  have h2 : ((timeWise 2 [1, 2, 3, 4, 5, 6] (some 3)).getD []).getD 3 0 =
      specTrailingSample 2 3 3 [1, 2, 3, 4, 5, 6] 1 0 := h.2.1
  rw [h2]
  norm_num [specTrailingSample]

/-- Entry-level description of `zeroed_m1`: rows 0..41 become 0, the other
rows keep their values. -/
theorem zeroed_m1_entry (r : RigidBodyMotions) (i j : Nat)
    (hdim : r.data.nrows = 84)
    (hlen : r.data.data.length = 84 * r.data.ncols)
    (hi : i < 84) (hj : j < r.data.ncols) :
    (r.zeroed_m1).data.entry i j = if i < 42 then 0 else r.data.entry i j := by
  show ((List.range r.data.data.length).map (fun idx =>
      if idx % r.data.nrows < 42 then 0 else r.data.data.getD idx 0)).getD
      (i + r.data.nrows * j) 0 =
    if i < 42 then 0 else r.data.data.getD (i + r.data.nrows * j) 0
  simp only [hdim]
  rw [getD_map_range _ (show i + 84 * j < r.data.data.length by
    rw [hlen]; omega)]
  rw [Nat.add_mul_mod_self_left, Nat.mod_eq_of_lt hi]

/-- Entry-level description of `zeroed_m2`: rows 42.. become 0, the other
rows keep their values. -/
theorem zeroed_m2_entry (r : RigidBodyMotions) (i j : Nat)
    (hdim : r.data.nrows = 84)
    (hlen : r.data.data.length = 84 * r.data.ncols)
    (hi : i < 84) (hj : j < r.data.ncols) :
    (r.zeroed_m2).data.entry i j = if 42 ≤ i then 0 else r.data.entry i j := by
  show ((List.range r.data.data.length).map (fun idx =>
      if 42 ≤ idx % r.data.nrows then 0 else r.data.data.getD idx 0)).getD
      (i + r.data.nrows * j) 0 =
    if 42 ≤ i then 0 else r.data.data.getD (i + r.data.nrows * j) 0
  simp only [hdim]
  rw [getD_map_range _ (show i + 84 * j < r.data.data.length by
    rw [hlen]; omega)]
  rw [Nat.add_mul_mod_self_left, Nat.mod_eq_of_lt hi]

/-- C9: `zeroed_m1` zeroes exactly rows 0..41 of the 84 x N matrix and
`zeroed_m2` exactly rows 42..83, leaving the other block, the dimensions,
the time vector and the sampling frequency unchanged; a perturbation
confined to M1 (rows 42..83 all zero) that is zeroed via `zeroed_m1`
yields an exactly zero tip-tilt vector. -/
theorem zeroed_blocks_isolate_mirrors
    (r : RigidBodyMotions) (N i j : Nat) (tt : List ℚ)
    (hdim : r.data.nrows = 84) (hN : r.data.ncols = N)
    (hlen : r.data.data.length = 84 * N)
    (hi : i < 84) (hj : j < N) (htt : tt.length = 2 * 84)
    (hm2zero : ∀ i2 < 84, ∀ j2 < N, 42 ≤ i2 → r.data.entry i2 j2 = 0) :
    ((r.zeroed_m1).data.entry i j = if i < 42 then 0 else r.data.entry i j) ∧
    ((r.zeroed_m2).data.entry i j = if 42 ≤ i then 0 else r.data.entry i j) ∧
    (r.zeroed_m1).data.nrows = r.data.nrows ∧
    (r.zeroed_m1).data.ncols = r.data.ncols ∧
    (r.zeroed_m1).time = r.time ∧
    (r.zeroed_m1).sampling_frequency = r.sampling_frequency ∧
    (r.zeroed_m1).timeVec = r.timeVec ∧
    (r.zeroed_m2).data.nrows = r.data.nrows ∧
    (r.zeroed_m2).data.ncols = r.data.ncols ∧
    (r.zeroed_m2).time = r.time ∧
    (r.zeroed_m2).sampling_frequency = r.sampling_frequency ∧
    (r.zeroed_m2).timeVec = r.timeVec ∧
    into_optics (.TipTilt tt) (r.zeroed_m1).data =
      some (List.replicate (2 * N) 0) := by
  have hlen2 : r.data.data.length = 84 * r.data.ncols := by rw [hN]; exact hlen
  refine ⟨zeroed_m1_entry r i j hdim hlen2 hi (by rw [hN]; exact hj),
    zeroed_m2_entry r i j hdim hlen2 hi (by rw [hN]; exact hj),
    rfl, rfl, rfl, rfl, rfl, rfl, rfl, rfl, rfl, rfl, ?_⟩
  have hb : ∀ l j2, l < (84 : Nat) → j2 < (r.zeroed_m1).data.ncols →
      (r.zeroed_m1).data.entry l j2 = 0 := by
    intro l j2 hl hj2
    have hj2N : j2 < N := by
      rw [show (r.zeroed_m1).data.ncols = r.data.ncols from rfl, hN] at hj2
      exact hj2
    rw [zeroed_m1_entry r l j2 hdim hlen2 hl (by rw [hN]; exact hj2N)]
    by_cases h42 : l < 42
    · rw [if_pos h42]
    · rw [if_neg h42]
      exact hm2zero l hl j2 hj2N (by omega)
  show some ((DMat.mul ⟨2, 84, tt⟩ (r.zeroed_m1).data).data) = _
  rw [mul_zero_right ⟨2, 84, tt⟩ (r.zeroed_m1).data hb]
  have : (r.zeroed_m1).data.ncols = N := by
    rw [show (r.zeroed_m1).data.ncols = r.data.ncols from rfl, hN]
  rw [this, Nat.mul_comm]

/-- Witness for C9 at a concrete input: the single-sample series whose M1
rows all hold 5 and whose M2 rows are 0: zeroing M1 clears row 0, zeroing
M2 keeps row 0 at 5, the time field is unchanged, and the tip-tilt of the
M1-zeroed series is the zero vector. -/
theorem zeroed_blocks_isolate_mirrors_witness :
    (RigidBodyMotions.zeroed_m1
      ⟨none, none,
        ⟨84, 1, List.replicate 42 (5 : ℚ) ++ List.replicate 42 0⟩,
        .AdHoc⟩).data.entry 0 0 = 0 ∧
    (RigidBodyMotions.zeroed_m2
      ⟨none, none,
        ⟨84, 1, List.replicate 42 (5 : ℚ) ++ List.replicate 42 0⟩,
        .AdHoc⟩).data.entry 0 0 = 5 ∧
    (RigidBodyMotions.zeroed_m1
      ⟨none, none,
        ⟨84, 1, List.replicate 42 (5 : ℚ) ++ List.replicate 42 0⟩,
        .AdHoc⟩).time = none ∧
    into_optics (.TipTilt (List.replicate 168 (1 : ℚ)))
      (RigidBodyMotions.zeroed_m1
        ⟨none, none,
          ⟨84, 1, List.replicate 42 (5 : ℚ) ++ List.replicate 42 0⟩,
          .AdHoc⟩).data = some (List.replicate 2 0) := by
  have h := zeroed_blocks_isolate_mirrors
    ⟨none, none, ⟨84, 1, List.replicate 42 (5 : ℚ) ++ List.replicate 42 0⟩,
      .AdHoc⟩
    1 0 0 (List.replicate 168 (1 : ℚ)) rfl rfl (by norm_num) (by norm_num)
    (by norm_num) (by norm_num) (by decide)
  refine ⟨?_, ?_, ?_, ?_⟩
  · rw [h.1, if_pos (by norm_num)]
  · rw [h.2.1, if_neg (by norm_num)]
    rfl
  · exact h.2.2.2.2.1
  · exact h.2.2.2.2.2.2.2.2.2.2.2.2

/-- C10: building a LOM with no rigid body motions supplied succeeds with
the default motion series, a single all-zero time sample: len is 1,
is_empty is false, and each of the four transforms returns the all-zero
vector of exactly one chunk width. -/
theorem lom_build_defaults_to_one_zero_sample
    (sens : OpticalSensitivities) (tt stt sp wv : List ℚ) (P : Nat)
    (htt : tt.length = 2 * 84) (hstt : stt.length = 14 * 84)
    (hsp : sp.length = 7 * 84) (hwv : wv.length = P * 84) :
    (lomBuild sens none).len = 1 ∧
    (lomBuild sens none).is_empty = false ∧
    into_optics (.TipTilt tt) (lomBuild sens none).rbm.data =
      some (List.replicate 2 0) ∧
    into_optics (.SegmentTipTilt stt) (lomBuild sens none).rbm.data =
      some (List.replicate 14 0) ∧
    into_optics (.SegmentPiston sp) (lomBuild sens none).rbm.data =
      some (List.replicate 7 0) ∧
    into_optics (.Wavefront wv) (lomBuild sens none).rbm.data =
      some (List.replicate P 0) := by
  have hb : ∀ (c : Nat), ∀ l j2, l < c →
      j2 < (lomBuild sens none).rbm.data.ncols →
      (lomBuild sens none).rbm.data.entry l j2 = 0 := by
    intro c l j2 _ _
    show (List.replicate 84 (0 : ℚ)).getD (l + 84 * j2) 0 = 0
    exact getD_replicate_zero _ _
  refine ⟨rfl, rfl, ?_, ?_, ?_, ?_⟩
  · show some ((DMat.mul ⟨2, 84, tt⟩ _).data) = _
    rw [mul_zero_right _ _ (hb 84)]
    rfl
  · show some ((DMat.mul ⟨14, 84, stt⟩ _).data) = _
    rw [mul_zero_right _ _ (hb 84)]
    rfl
  · show some ((DMat.mul ⟨7, 84, sp⟩ _).data) = _
    rw [mul_zero_right _ _ (hb 84)]
    rfl
  · show some ((DMat.mul ⟨wv.length / 84, 84, wv⟩ _).data) = _
    rw [mul_zero_right _ _ (hb 84)]
    rw [hwv, Nat.mul_div_cancel _ (by norm_num)]
    show some (List.replicate (1 * P) 0) = _
    rw [Nat.one_mul]

/-- Witness for C10 at a concrete input: with an empty store and all-ones
sensitivity payloads of the right sizes (one illuminated pupil point for
the Wavefront), the freshly built model has one sample, is not empty, and
all four transforms give zero vectors of widths 2, 14, 7 and 1. -/
theorem lom_build_defaults_to_one_zero_sample_witness :
    (lomBuild [] none).len = 1 ∧
    (lomBuild [] none).is_empty = false ∧
    into_optics (.TipTilt (List.replicate 168 (1 : ℚ)))
      (lomBuild [] none).rbm.data = some (List.replicate 2 0) ∧
    into_optics (.SegmentTipTilt (List.replicate 1176 (1 : ℚ)))
      (lomBuild [] none).rbm.data = some (List.replicate 14 0) ∧
    into_optics (.SegmentPiston (List.replicate 588 (1 : ℚ)))
      (lomBuild [] none).rbm.data = some (List.replicate 7 0) ∧
    into_optics (.Wavefront (List.replicate 84 (1 : ℚ)))
      (lomBuild [] none).rbm.data = some (List.replicate 1 0) :=
  lom_build_defaults_to_one_zero_sample []
    (List.replicate 168 (1 : ℚ)) (List.replicate 1176 (1 : ℚ))
    (List.replicate 588 (1 : ℚ)) (List.replicate 84 (1 : ℚ)) 1
    (by norm_num) (by norm_num) (by norm_num) (by norm_num)

end GmtLom
